import Mathlib

/-!
# Verification of the scythe scraping / ingestion pipeline

A shallow embedding of the two Python modules of the repository:

* `scraper.py` — the Fetch Client (`fetch_data_with_retry`), the Pagination
  Driver and Record Extractor (`scrape_group`), and the group orchestrator
  (the `__main__` loop).
* `upload_teams_to_supabase.py` — the Ingestion Pipeline (`process_file`,
  `deduplicate_records`, `main`, `write_log`).

JSON payloads are modelled by the inductive type `JValue`.  Python runtime
errors that the code can raise (KeyError, IndexError, TypeError,
AttributeError) are modelled with `Except PyErr`.  Network and store
behaviour is supplied by oracles, so every definition is executable.
-/

/-- A JSON value, as produced by `response.json()` / `json.load`.
Numbers are modelled as integers: no claim depends on float arithmetic,
payload numbers are only stored and compared. -/
inductive JValue where
  | null
  | bool (b : Bool)
  | num (n : Int)
  | str (s : String)
  | arr (xs : List JValue)
  | obj (fields : List (String × JValue))

mutual

/-- Structural equality of JSON values (Python `==` on parsed JSON). -/
def JValue.beq : JValue → JValue → Bool
  | .null, .null => true
  | .bool a, .bool b => a == b
  | .num a, .num b => a == b
  | .str a, .str b => a == b
  | .arr xs, .arr ys => JValue.beqList xs ys
  | .obj fs, .obj gs => JValue.beqFields fs gs
  | _, _ => false

def JValue.beqList : List JValue → List JValue → Bool
  | [], [] => true
  | x :: xs, y :: ys => JValue.beq x y && JValue.beqList xs ys
  | _, _ => false

def JValue.beqFields : List (String × JValue) → List (String × JValue) → Bool
  | [], [] => true
  | (k, v) :: fs, (k2, v2) :: gs => k == k2 && JValue.beq v v2 && JValue.beqFields fs gs
  | _, _ => false

end

mutual

def JValue.beq_iff : (a b : JValue) → (JValue.beq a b = true ↔ a = b)
  | .null, .null => by simp [JValue.beq]
  | .null, .bool _ => by simp [JValue.beq]
  | .null, .num _ => by simp [JValue.beq]
  | .null, .str _ => by simp [JValue.beq]
  | .null, .arr _ => by simp [JValue.beq]
  | .null, .obj _ => by simp [JValue.beq]
  | .bool _, .null => by simp [JValue.beq]
  | .bool a, .bool b => by simp [JValue.beq]
  | .bool _, .num _ => by simp [JValue.beq]
  | .bool _, .str _ => by simp [JValue.beq]
  | .bool _, .arr _ => by simp [JValue.beq]
  | .bool _, .obj _ => by simp [JValue.beq]
  | .num _, .null => by simp [JValue.beq]
  | .num _, .bool _ => by simp [JValue.beq]
  | .num a, .num b => by simp [JValue.beq]
  | .num _, .str _ => by simp [JValue.beq]
  | .num _, .arr _ => by simp [JValue.beq]
  | .num _, .obj _ => by simp [JValue.beq]
  | .str _, .null => by simp [JValue.beq]
  | .str _, .bool _ => by simp [JValue.beq]
  | .str _, .num _ => by simp [JValue.beq]
  | .str a, .str b => by simp [JValue.beq]
  | .str _, .arr _ => by simp [JValue.beq]
  | .str _, .obj _ => by simp [JValue.beq]
  | .arr _, .null => by simp [JValue.beq]
  | .arr _, .bool _ => by simp [JValue.beq]
  | .arr _, .num _ => by simp [JValue.beq]
  | .arr _, .str _ => by simp [JValue.beq]
  | .arr xs, .arr ys => by
      simp [JValue.beq, JValue.beqList_iff xs ys]
  | .arr _, .obj _ => by simp [JValue.beq]
  | .obj _, .null => by simp [JValue.beq]
  | .obj _, .bool _ => by simp [JValue.beq]
  | .obj _, .num _ => by simp [JValue.beq]
  | .obj _, .str _ => by simp [JValue.beq]
  | .obj _, .arr _ => by simp [JValue.beq]
  | .obj fs, .obj gs => by
      simp [JValue.beq, JValue.beqFields_iff fs gs]

def JValue.beqList_iff : (xs ys : List JValue) → (JValue.beqList xs ys = true ↔ xs = ys)
  | [], [] => by simp [JValue.beqList]
  | [], _ :: _ => by simp [JValue.beqList]
  | _ :: _, [] => by simp [JValue.beqList]
  | x :: xs, y :: ys => by
      simp [JValue.beqList, JValue.beq_iff x y, JValue.beqList_iff xs ys]

def JValue.beqFields_iff :
    (fs gs : List (String × JValue)) → (JValue.beqFields fs gs = true ↔ fs = gs)
  | [], [] => by simp [JValue.beqFields]
  | [], _ :: _ => by simp [JValue.beqFields]
  | _ :: _, [] => by simp [JValue.beqFields]
  | (k, v) :: fs, (k2, v2) :: gs => by
      simp [JValue.beqFields, JValue.beq_iff v v2, JValue.beqFields_iff fs gs,
        Prod.ext_iff]

end

instance : DecidableEq JValue := fun a b => decidable_of_iff _ (JValue.beq_iff a b)

instance {e a : Type} [DecidableEq e] [DecidableEq a] : DecidableEq (Except e a) := fun
  | .ok x, .ok y =>
    if h : x = y then .isTrue (by rw [h]) else .isFalse (by intro hc; cases hc; exact h rfl)
  | .error x, .error y =>
    if h : x = y then .isTrue (by rw [h]) else .isFalse (by intro hc; cases hc; exact h rfl)
  | .ok _, .error _ => .isFalse (by intro hc; cases hc)
  | .error _, .ok _ => .isFalse (by intro hc; cases hc)

/-- Python truthiness of a JSON value (`if not first_page`, `if data`, …):
`None`, `False`, `0`, `""`, `[]` and `{}` are falsy. -/
def isFalsy : JValue → Bool
  | .null => true
  | .bool b => !b
  | .num n => n = 0
  | .str s => s.data.isEmpty
  | .arr xs => xs.isEmpty
  | .obj fs => fs.isEmpty

def isTruthy (v : JValue) : Bool := !isFalsy v

/-- Lookup of a key in a JSON object's field list (Python dict lookup;
`json.load` produces unique keys, so first match is the value). -/
def lookupField (fields : List (String × JValue)) (k : String) : Option JValue :=
  (fields.find? (fun p => p.1 = k)).map (·.2)

/-- Python substring test `pat in s`. -/
def strContains (s pat : String) : Bool :=
  s.data.tails.any (fun t => pat.data.isPrefixOf t)

/-- Python `s.endswith(pat)`. -/
def strEndsWith (s pat : String) : Bool := pat.data.isSuffixOf s.data

/-- The Python runtime errors the embedded code can raise. -/
inductive PyErr where
  | keyError (k : String)
  | indexError
  | typeError
  | attributeError
deriving DecidableEq

/-! ## Fetch Client (`scraper.py`, `fetch_data_with_retry`) -/

/-- Retry ceiling (`MAX_RETRIES = 3` in `scraper.py`). -/
def MAX_RETRIES : Nat := 3

/-- Backoff base in seconds (`RETRY_DELAY = 5` in `scraper.py`). -/
def RETRY_DELAY : Nat := 5

/-- Worker-pool width (`MAX_WORKERS = 5` in `scraper.py`). -/
def MAX_WORKERS : Nat := 5

/-- Outcome of one HTTP attempt `session.get(url, timeout=30)` followed by
`.json()`: a 200 response with parseable JSON, a non-200 status (logged,
not raised), or any exception (transport error, timeout, JSON error). -/
inductive AttemptResult where
  | success (payload : JValue)
  | httpError (status : Nat)
  | exn

def AttemptResult.isSuccess : AttemptResult → Bool
  | .success _ => true
  | _ => false

/-- Observable trace of one `fetch_data_with_retry` call: the returned value
(`none` models Python `None`), how many attempts were issued, and the
sequence of `time.sleep` delays performed between attempts. -/
structure FetchTrace where
  result : Option JValue
  attempts : Nat
  delays : List Nat
deriving DecidableEq

/-- The retry loop body of `fetch_data_with_retry`: `attempt` is the current
0-based loop index, `fuel` the number of loop iterations remaining
(`MAX_RETRIES - attempt` at entry). -/
def fetchAux (oracle : Nat → AttemptResult) : Nat → Nat → FetchTrace
  | _, 0 => ⟨none, 0, []⟩
  | attempt, fuel + 1 =>
    match oracle attempt with
    | .success p => ⟨some p, 1, []⟩
    | _ =>
      if attempt < MAX_RETRIES - 1 then
        let rest := fetchAux oracle (attempt + 1) fuel
        ⟨rest.result, rest.attempts + 1, RETRY_DELAY * (attempt + 1) :: rest.delays⟩
      else ⟨none, 1, []⟩

/-- `fetch_data_with_retry(url)` (`scraper.py` lines 54–72), with the
network abstracted by `oracle : attempt index → outcome`. -/
def fetch_data_with_retry (oracle : Nat → AttemptResult) : FetchTrace :=
  fetchAux oracle 0 MAX_RETRIES

/-! ## Record Extractor (`scraper.py`, `scrape_group` lines 120–134) -/

/-- The marker keys of the fallback heuristic:
`any(x in sample for x in ["name", "id", "team", "rank"])`. -/
def markerKeys : List String := ["name", "id", "team", "rank"]

/-- The `for key in data.keys()` scan: every non-canonical field whose value
is a list is probed at `data[key][0]`; an empty list raises `IndexError`
(which aborts the scan), a mapping first element whose key set meets
`markerKeys` makes the whole list get unioned in.  Returns the records
extended into `all_teams` before any error, and the error if one was
raised. -/
def scanKeys : List (String × JValue) → List JValue × Option PyErr
  | [] => ([], none)
  | (k, v) :: rest =>
    if k = "team_ranking_data" then scanKeys rest
    else
      match v with
      | .arr [] => ([], some .indexError)
      | .arr (sample :: tail) =>
        let take : Bool :=
          match sample with
          | .obj sfields => markerKeys.any (fun m => sfields.any (fun q => q.1 = m))
          | _ => false
        let rest' := scanKeys rest
        if take then (sample :: tail ++ rest'.1, rest'.2) else rest'
      | _ => scanKeys rest

/-- The per-page extraction block of `scrape_group`: the canonical
`team_ranking_data` list (if present and list-valued) followed by the
fallback scan.  For a non-mapping payload the membership test
`"team_ranking_data" in data` and `data.keys()` raise as in Python.
Returns the records extended into `all_teams` plus the raised error, if
any (the caller catches it). -/
def extractTeams (data : JValue) : List JValue × Option PyErr :=
  match data with
  | .obj fields =>
    let canonical : List JValue :=
      match lookupField fields "team_ranking_data" with
      | some (.arr xs) => xs
      | _ => []
    let scanned := scanKeys fields
    (canonical ++ scanned.1, scanned.2)
  | .arr xs =>
    ([], some (if decide (JValue.str "team_ranking_data" ∈ xs) then .typeError else .attributeError))
  | .str s =>
    ([], some (if strContains s "team_ranking_data" then .typeError else .attributeError))
  | _ => ([], some .typeError)

/-! ## Pagination Driver (`scraper.py`, `scrape_group`) -/

/-- `x.get(k, default)` — Python `dict.get`; raises `AttributeError` on a
non-mapping receiver. -/
def pyDictGetD (v : JValue) (k : String) (dflt : JValue) : Except PyErr JValue :=
  match v with
  | .obj fields => .ok ((lookupField fields k).getD dflt)
  | _ => .error .attributeError

/-- Using a JSON value as the `total_pages` bound of
`range(1, total_pages + 1)`: Python ints (negative ones give an empty
range), bools coerce to 0/1, anything else raises `TypeError`. -/
def pyAsNat : JValue → Except PyErr Nat
  | .num n => .ok n.toNat
  | .bool b => .ok (if b then 1 else 0)
  | _ => .error .typeError

/-- Lines 102–103 of `scraper.py`:
`first_page.get("pagination", {}).get("total_pages", 1)` coerced for use as
a range bound. -/
def getTotalPages (fp : JValue) : Except PyErr Nat :=
  match pyDictGetD fp "pagination" (.obj []) with
  | .error e => .error e
  | .ok pagination =>
    match pyDictGetD pagination "total_pages" (.num 1) with
    | .error e => .error e
    | .ok tpv => pyAsNat tpv

/-- Observable trace of one `scrape_group(gender, age)` call.
`syncFetches`/`poolFetches` list the page numbers passed to
`fetch_data_with_retry` synchronously resp. submitted to the worker pool;
`saves` records each `save_data` call of the pool loop as
(filename index `n` of `…_page{n}_raw_…`, payload written);
`firstSave` is the unconditional line-100 save of the page-1 payload;
`aggregate` is the final `all_teams`; `aborted` is true when the
page-1 guard `if not first_page` returned early. -/
structure ScrapeTrace where
  syncFetches : List Nat
  poolFetches : List Nat
  firstSave : Option JValue
  saves : List (Nat × JValue)
  aggregate : List JValue
  aborted : Bool
deriving DecidableEq

/-- The trace returned when the page-1 guard fails. -/
def abortTrace : ScrapeTrace :=
  { syncFetches := [1], poolFetches := [], firstSave := none, saves := [],
    aggregate := [], aborted := true }

/-- The `as_completed` drain loop (`scraper.py` lines 113–139): `order` is
the completion order of the submitted futures, `idx` the running
`enumerate(…, 1)` counter.  Each truthy result is saved under the
completion index, then extraction runs inside the per-future
`try/except`, so an extraction error only cuts that page's contribution
short.  Returns (saves, records added to `all_teams`). -/
def poolLoop (f : Nat → Option JValue) : List Nat → Nat → List (Nat × JValue) × List JValue
  | [], _ => ([], [])
  | p :: rest, idx =>
    let tailRes := poolLoop f rest (idx + 1)
    match f p with
    | some data =>
      if isTruthy data then
        ((idx, data) :: tailRes.1, (extractTeams data).1 ++ tailRes.2)
      else tailRes
    | none => tailRes

/-- `scrape_group` (`scraper.py` lines 75–148).  The network is abstracted
by `f : page number → result of fetch_data_with_retry for that page's
URL`, and the nondeterministic completion order of the pool by `order`
(in a real run, a permutation of the submitted pages `1..total_pages`).
A `.error` result models an uncaught Python exception propagating out of
`scrape_group`. -/
def scrape_group (f : Nat → Option JValue) (order : List Nat) : Except PyErr ScrapeTrace :=
  match f 1 with
  | none => .ok abortTrace
  | some fp =>
    if isFalsy fp then .ok abortTrace
    else
      match getTotalPages fp with
      | .error e => .error e
      | .ok total_pages =>
        let poolRes := poolLoop f order 1
        .ok { syncFetches := [1]
              poolFetches := List.range' 1 total_pages
              firstSave := some fp
              saves := poolRes.1
              aggregate := poolRes.2
              aborted := false }

/-- The `__main__` loop of `scraper.py` over groups (gender × age),
abstracted to a list of group indices `g` with per-group fetch oracle
`f g` and completion order `ord g`.  Groups run strictly sequentially;
an uncaught exception in one group aborts the remaining groups. -/
def runGroups (f : Nat → Nat → Option JValue) (ord : Nat → List Nat) :
    List Nat → Except PyErr (List ScrapeTrace)
  | [] => .ok []
  | g :: gs =>
    match scrape_group (f g) (ord g) with
    | .error e => .error e
    | .ok tr =>
      match runGroups f ord gs with
      | .error e => .error e
      | .ok ts => .ok (tr :: ts)

/-- All page numbers handed to `fetch_data_with_retry` in one
`scrape_group` call (synchronous page-1 call followed by the pool
submissions); `[]` if the call raised. -/
def scrapeAttempts (f : Nat → Option JValue) (order : List Nat) : List Nat :=
  match scrape_group f order with
  | .ok tr => tr.syncFetches ++ tr.poolFetches
  | .error _ => []

/-- The per-page raw-dump saves performed by the pool loop of one
`scrape_group` call; `[]` if the call raised. -/
def scrapeSaves (f : Nat → Option JValue) (order : List Nat) : List (Nat × JValue) :=
  match scrape_group f order with
  | .ok tr => tr.saves
  | .error _ => []

/-- Completion-order description of the pool saves: the `n`-th completed
fetch (1-based, counted over all completed futures) is saved under
filename index `n` exactly when its result is truthy. -/
def expectedSaves (f : Nat → Option JValue) (order : List Nat) : List (Nat × JValue) :=
  ((List.range' 1 order.length).zip order).filterMap (fun iv =>
    match f iv.2 with
    | some d => if isTruthy d then some (iv.1, d) else none
    | none => none)

/-! ## Ingestion Pipeline (`upload_teams_to_supabase.py`) -/

/-- The module-level log accumulators of `upload_teams_to_supabase.py`
(lines 15–19).  A `skipped_teams` entry is
`(team.get('id', 'unknown'), missing key)`; a `duplicate_teams` entry is a
duplicated identity. -/
structure IngestState where
  skipped_files : List (String × String)
  empty_files : List String
  skipped_teams : List (JValue × String)
  duplicate_teams : List JValue
  total_uploaded : Nat
deriving DecidableEq

/-- The accumulators at interpreter start. -/
def initState : IngestState :=
  { skipped_files := [], empty_files := [], skipped_teams := [],
    duplicate_teams := [], total_uploaded := 0 }

/-- What `json.load(open(filepath))` produced for one source file: a parse
or I/O failure (with its message) or a JSON value. -/
inductive ParsedFile where
  | parseError (msg : String)
  | value (v : JValue)

/-- `team[k]` — Python mapping subscription: `KeyError` on a missing key,
`TypeError` on a non-mapping receiver. -/
def pyDictGet (v : JValue) (k : String) : Except PyErr JValue :=
  match v with
  | .obj fields =>
    match lookupField fields k with
    | some x => .ok x
    | none => .error (.keyError k)
  | _ => .error .typeError

/-- `team.get(k)` — returns `None` for a missing key, raises
`AttributeError` on a non-mapping receiver. -/
def pyDictGetOpt (v : JValue) (k : String) : Except PyErr JValue :=
  match v with
  | .obj fields => .ok ((lookupField fields k).getD .null)
  | _ => .error .attributeError

/-- The record projection of `process_file` (lines 41–48): the dict literal
with the five required fields and the optional `national_rank`. -/
def projectTeam (team : JValue) : Except PyErr JValue :=
  match pyDictGet team "id" with
  | .error e => .error e
  | .ok i =>
    match pyDictGet team "team_name" with
    | .error e => .error e
    | .ok n =>
      match pyDictGet team "total_points" with
      | .error e => .error e
      | .ok tp =>
        match pyDictGet team "age" with
        | .error e => .error e
        | .ok a =>
          match pyDictGet team "gender" with
          | .error e => .error e
          | .ok g =>
            match pyDictGetOpt team "national_rank" with
            | .error e => .error e
            | .ok nr =>
              .ok (.obj [("id", i), ("team_name", n), ("total_points", tp),
                         ("age", a), ("gender", g), ("national_rank", nr)])

/-- `team.get('id', 'unknown')` as used in the `except KeyError` handler. -/
def idOrUnknown (team : JValue) : JValue :=
  match team with
  | .obj fields => (lookupField fields "id").getD (.str "unknown")
  | _ => .str "unknown"

/-- The `for team in teams` loop of `process_file` (lines 38–53): a
`KeyError` drops the single record into `skipped_teams` and continues;
any other exception propagates. -/
def processTeams : List JValue → IngestState → Except PyErr (List JValue × IngestState)
  | [], st => .ok ([], st)
  | team :: rest, st =>
    match projectTeam team with
    | .ok r =>
      match processTeams rest st with
      | .ok (rs, st') => .ok (r :: rs, st')
      | .error e => .error e
    | .error (.keyError k) =>
      processTeams rest
        { st with skipped_teams := st.skipped_teams ++ [(idOrUnknown team, k)] }
    | .error e => .error e

/-- `process_file(filepath)` (lines 21–54).  `name` stands for the file
path; the open/parse step is abstracted by `ParsedFile`.  A non-list
`team_ranking_data` value is iterated as Python would (characters of a
string, keys of a dict), which raises `TypeError` at the first
subscription unless the iteration is empty. -/
def process_file (name : String) (pf : ParsedFile) (st : IngestState) :
    Except PyErr (List JValue × IngestState) :=
  match pf with
  | .parseError msg =>
    .ok ([], { st with skipped_files := st.skipped_files ++ [(name, msg)] })
  | .value raw =>
    match raw with
    | .arr teams => processTeams teams st
    | .obj fields =>
      if (lookupField fields "team_ranking_data").isSome then
        match lookupField fields "team_ranking_data" with
        | some (.arr teams) => processTeams teams st
        | some (.str s) => if s.data.isEmpty then .ok ([], st) else .error .typeError
        | some (.obj []) => .ok ([], st)
        | some _ => .error .typeError
        | none => .error (.keyError "team_ranking_data")
      else .ok ([], { st with empty_files := st.empty_files ++ [name] })
    | _ => .ok ([], { st with empty_files := st.empty_files ++ [name] })

/-- The file loop of `main` (lines 78–83): only names ending in `.json`
are processed; record lists are concatenated in file order. -/
def processFiles : List (String × ParsedFile) → IngestState →
    Except PyErr (List JValue × IngestState)
  | [], st => .ok ([], st)
  | (name, pf) :: rest, st =>
    if strEndsWith name ".json" then
      match process_file name pf st with
      | .error e => .error e
      | .ok (rs, st1) =>
        match processFiles rest st1 with
        | .error e => .error e
        | .ok (rest_rs, st2) => .ok (rs ++ rest_rs, st2)
    else processFiles rest st

/-- Python dict assignment `unique_records[record_id] = record`: replace in
place if the key is present, else append. -/
def upsertAssoc (m : List (JValue × JValue)) (k v : JValue) : List (JValue × JValue) :=
  if (m.find? (fun p => p.1 = k)).isSome then
    m.map (fun p => if p.1 = k then (k, v) else p)
  else m ++ [(k, v)]

/-- Lookup in an insertion-ordered dict model. -/
def assocLookup (m : List (JValue × JValue)) (k : JValue) : Option JValue :=
  (m.find? (fun p => p.1 = k)).map (·.2)

/-- The loop of `deduplicate_records` (lines 61–65): `m` models
`unique_records` (a Python dict, insertion-ordered), `d` the `duplicates`
set (modelled as a duplicate-free list; the claims do not depend on set
iteration order).  `record['id']` on a record without an id raises. -/
def dedupGo : List JValue → List (JValue × JValue) → List JValue →
    Except PyErr (List (JValue × JValue) × List JValue)
  | [], m, d => .ok (m, d)
  | r :: rest, m, d =>
    match pyDictGet r "id" with
    | .error e => .error e
    | .ok rid =>
      let d' := if (m.find? (fun p => p.1 = rid)).isSome then
          (if rid ∈ d then d else d ++ [rid])
        else d
      dedupGo rest (upsertAssoc m rid r) d'

/-- `deduplicate_records(records)` (lines 56–70): returns
(`list(unique_records.values())`, the duplicate identities appended to
`duplicate_teams`). -/
def deduplicate_records (records : List JValue) :
    Except PyErr (List JValue × List JValue) :=
  match dedupGo records [] [] with
  | .error e => .error e
  | .ok (m, d) => .ok (m.map (·.2), d)

/-- Observable outcome of one `main()` call of the upload script:
the deduplicated batch handed to the store (`none` when the early
`if not all_records: return` fired before any upsert), the final
`total_uploaded`, whether `write_log` ran, and the final accumulator
state (the content of the written summary). -/
structure MainOutcome where
  batch : Option (List JValue)
  uploaded : Nat
  logWritten : Bool
  finalState : IngestState
deriving DecidableEq

/-- `main()` of `upload_teams_to_supabase.py` (lines 72–108).  `files`
abstracts `os.listdir(DATA_FOLDER)` with each file's parse outcome;
`upsertOk` abstracts whether the single batch upsert call succeeds (its
exception is caught: on failure `total_uploaded` is left unchanged).
`write_log` always runs after the upsert attempt, but not on the early
no-records return. -/
def pipeline_main (files : List (String × ParsedFile)) (upsertOk : Bool)
    (st : IngestState) : Except PyErr MainOutcome :=
  match processFiles files st with
  | .error e => .error e
  | .ok (all_records, st1) =>
    if all_records.isEmpty then
      .ok { batch := none, uploaded := st1.total_uploaded, logWritten := false,
            finalState := st1 }
    else
      match deduplicate_records all_records with
      | .error e => .error e
      | .ok (deduped, dups) =>
        let st2 := { st1 with duplicate_teams := st1.duplicate_teams ++ dups }
        let uploaded := if upsertOk then deduped.length else st2.total_uploaded
        let st3 := { st2 with total_uploaded := uploaded }
        .ok { batch := some deduped, uploaded := uploaded, logWritten := true,
              finalState := st3 }

/-! ## Specification-side helpers used in theorem statements -/

/-- The identity of a canonical/raw record: its `id` field, if it is a
mapping that has one. -/
def recId (r : JValue) : Option JValue :=
  match r with
  | .obj fields => lookupField fields "id"
  | _ => none

/-- Whether a record is a mapping carrying an `id` field. -/
def hasId (r : JValue) : Bool := (recId r).isSome

/-- Whether a value is a JSON mapping. -/
def JValue.isObj : JValue → Bool
  | .obj _ => true
  | _ => false

/-- The records of a sequence carrying a given identity, in order. -/
def withId (records : List JValue) (k : JValue) : List JValue :=
  records.filter (fun r => recId r = some k)

/-- First-`some` choice on options. -/
def firstSome (a b : Option JValue) : Option JValue :=
  match a with
  | some x => some x
  | none => b

/-- The keys of an association-list dict/table are pairwise distinct. -/
def keysNodup (m : List (JValue × JValue)) : Prop := (m.map Prod.fst).Nodup

/-- The skipped-record entries that processing a team list appends, by the
record-shape failure taxonomy: one entry per record whose projection
raises `KeyError`, keyed by its identity when present, else the
placeholder `'unknown'`. -/
def skippedOf (teams : List JValue) : List (JValue × String) :=
  teams.filterMap (fun t =>
    match projectTeam t with
    | .error (.keyError k) => some (idOrUnknown t, k)
    | _ => none)

/-- Modelled from the spec: the data store collaborator (§6) is not part of
`src/` — only the `supabase.table(...).upsert(batch, on_conflict="id")`
call site is.  §6: "upsert operation accepting a batch of records with a
declared unique-conflict key (identity field); must support
insert-or-update in one call".  The table is an identity-keyed
association list; each batch record inserts or updates the row with its
identity. -/
def storeUpsert (t : List (JValue × JValue)) (batch : List JValue) :
    List (JValue × JValue) :=
  batch.foldl (fun acc r =>
    match recId r with
    | some k => upsertAssoc acc k r
    | none => acc) t

/-- Whether a field would be picked up by the fallback scan of the Record
Extractor: a non-canonical key whose value is a non-empty list whose
first element is a mapping sharing a key with `markerKeys`. -/
def scanMatch (p : String × JValue) : Bool :=
  decide (p.1 ≠ "team_ranking_data") &&
  (match p.2 with
   | .arr (JValue.obj sfields :: _) =>
     markerKeys.any (fun m => sfields.any (fun q => q.1 = m))
   | _ => false)

/-- Whether the canonical `team_ranking_data` field is present and
list-valued. -/
def canonMatch (fields : List (String × JValue)) : Bool :=
  match lookupField fields "team_ranking_data" with
  | some (.arr _) => true
  | _ => false

/-! ### Concrete example inputs used by witnesses and counterexamples -/

/-- A page-1 payload reporting 2 total pages. -/
def fpW : JValue := .obj [("pagination", .obj [("total_pages", .num 2)])]

/-- A network where every page fetch returns `fpW`. -/
def cfW : Nat → Option JValue := fun _ => some fpW

/-- The trace of `scrape_group cfW [1, 2]`. -/
def trW : ScrapeTrace :=
  { syncFetches := [1], poolFetches := [1, 2], firstSave := some fpW,
    saves := [(1, fpW), (2, fpW)], aggregate := [], aborted := false }

/-- A page-1 payload reporting 2 total pages, marked as page 1. -/
def fp8W : JValue := .obj [("pagination", .obj [("total_pages", .num 2)]), ("marker", .num 1)]

/-- A distinguishable page-2 payload. -/
def p8W : JValue := .obj [("marker", .num 2)]

/-- A network returning `fp8W` for page 1 and `p8W` for page 2. -/
def f8W : Nat → Option JValue :=
  fun n => if n = 1 then some fp8W else if n = 2 then some p8W else none

/-- The trace of `scrape_group f8W [2, 1]` (page 2's fetch completes first). -/
def tr8W : ScrapeTrace :=
  { syncFetches := [1], poolFetches := [1, 2], firstSave := some fp8W,
    saves := [(1, p8W), (2, fp8W)], aggregate := [], aborted := false }

/-- A raw record missing required fields (only `id` is present). -/
def wBad : JValue := .obj [("id", .num 7)]

/-- A fully-populated raw record; its canonical projection is itself. -/
def wGood : JValue := .obj [("id", .num 8), ("team_name", .str "T"), ("total_points", .num 10),
  ("age", .num 12), ("gender", .str "m"), ("national_rank", .num 3)]

/-- A one-file input directory for a concrete pipeline run. -/
def wFilesC10 : List (String × ParsedFile) := [("a.json", .value (.arr [wGood]))]

/-- The outcome of `pipeline_main wFilesC10 true initState`. -/
def wOutC10 : MainOutcome :=
  { batch := some [wGood], uploaded := 1, logWritten := true,
    finalState := { initState with total_uploaded := 1 } }

/-- The outcome of `pipeline_main wFilesC10 false initState` (records found,
upsert fails, summary still written). -/
def wOutC6 : MainOutcome :=
  { batch := some [wGood], uploaded := 0, logWritten := true, finalState := initState }

/-- The spec's dedup example: `[{id:1,v:"a"}, {id:2,v:"b"}, {id:1,v:"c"}]`. -/
def recsC2 : List JValue :=
  [.obj [("id", .num 1), ("v", .str "a")],
   .obj [("id", .num 2), ("v", .str "b")],
   .obj [("id", .num 1), ("v", .str "c")]]

/-! ## Theorems -/

theorem fetchAux_step_fail (oracle : Nat → AttemptResult) (attempt fuel : Nat)
    (hfail : (oracle attempt).isSuccess = false) :
    fetchAux oracle attempt (fuel + 1) =
      if attempt < MAX_RETRIES - 1 then
        ⟨(fetchAux oracle (attempt + 1) fuel).result,
         (fetchAux oracle (attempt + 1) fuel).attempts + 1,
         RETRY_DELAY * (attempt + 1) :: (fetchAux oracle (attempt + 1) fuel).delays⟩
      else ⟨none, 1, []⟩ := by
  cases ho : oracle attempt <;>
    simp [AttemptResult.isSuccess, ho] at hfail ⊢ <;>
    simp [fetchAux, ho]

/-- C3: a fetch whose every attempt fails (transport error, timeout, or
non-200 status) makes exactly `MAX_RETRIES` attempts, returns Failure
(`None`, not an exception), and sleeps `base*1, …, base*(MAX_RETRIES-1)`
between consecutive attempts, with no delay after the final attempt. -/
theorem fetch_retry_exhaustion (oracle : Nat → AttemptResult)
    (h : ∀ i, i < MAX_RETRIES → (oracle i).isSuccess = false) :
    (fetch_data_with_retry oracle).result = none ∧
    (fetch_data_with_retry oracle).attempts = MAX_RETRIES ∧
    (fetch_data_with_retry oracle).delays =
      (List.range (MAX_RETRIES - 1)).map (fun k => RETRY_DELAY * (k + 1)) := by
  have e2 := fetchAux_step_fail oracle 2 0 (h 2 (by decide))
  have e1 := fetchAux_step_fail oracle 1 1 (h 1 (by decide))
  have e0 := fetchAux_step_fail oracle 0 2 (h 0 (by decide))
  simp [MAX_RETRIES] at e0 e1 e2
  simp [fetch_data_with_retry, MAX_RETRIES, show (3 : Nat) = 2 + 1 from rfl,
    e0, e1, e2, RETRY_DELAY]
  decide

/-- Witness for C3 at the oracle whose every attempt raises. -/
theorem fetch_retry_exhaustion_witness :
    (∀ i, i < MAX_RETRIES → (AttemptResult.exn).isSuccess = false) ∧
    ((fetch_data_with_retry (fun _ => .exn)).result = none ∧
     (fetch_data_with_retry (fun _ => .exn)).attempts = MAX_RETRIES ∧
     (fetch_data_with_retry (fun _ => .exn)).delays =
       (List.range (MAX_RETRIES - 1)).map (fun k => RETRY_DELAY * (k + 1))) :=
  ⟨fun _ _ => rfl, fetch_retry_exhaustion (fun _ => .exn) (fun _ _ => rfl)⟩

/-- C7: when the synchronous page-1 fetch of a group returns Failure,
`scrape_group` returns normally with zero pool fetches, zero pool saves
and an empty aggregate, and the orchestrator's remaining groups run
exactly as they would have. -/
theorem group_abort (f : Nat → Nat → Option JValue) (ord : Nat → List Nat)
    (g : Nat) (gs : List Nat) (h : f g 1 = none) :
    scrape_group (f g) (ord g) = .ok abortTrace ∧
    abortTrace.poolFetches = [] ∧ abortTrace.saves = [] ∧
    abortTrace.aggregate = [] ∧
    runGroups f ord (g :: gs) = (runGroups f ord gs).map (fun ts => abortTrace :: ts) := by
  have hsg : scrape_group (f g) (ord g) = .ok abortTrace := by
    simp [scrape_group, h]
  refine ⟨hsg, rfl, rfl, rfl, ?_⟩
  rw [runGroups, hsg]
  cases runGroups f ord gs <;> simp [Except.map]

/-- Witness for C7: a single group whose page-1 fetch fails. -/
theorem group_abort_witness :
    scrape_group ((fun _ _ => (none : Option JValue)) 0) ((fun _ => ([] : List Nat)) 0)
      = .ok abortTrace ∧
    runGroups (fun _ _ => none) (fun _ => []) [0] = .ok [abortTrace] := by
  have h := group_abort (fun _ _ => none) (fun _ => []) 0 [] rfl
  exact ⟨h.1, by rw [h.2.2.2.2]; rfl⟩

theorem count_range' (a n x : Nat) :
    (List.range' a n).count x = if a ≤ x ∧ x < a + n then 1 else 0 := by
  by_cases h : x ∈ List.range' a n
  · rw [List.count_eq_one_of_mem (List.nodup_range' a n) h]
    rw [List.mem_range'_1] at h
    simp [h]
  · rw [List.count_eq_zero_of_not_mem h]
    rw [List.mem_range'_1] at h
    simp [h]

/-- C1 (amended): for a group whose page-1 fetch succeeds (with a truthy
payload) reporting `total_pages = N ≥ 1`, the pool is handed pages
`1..N` — not only the remaining pages — so page 1 is attempted twice
(once synchronously and once by the pool) and each page `2..N` exactly
once; pages beyond `N` are never attempted. -/
theorem page_attempts (f : Nat → Option JValue) (order : List Nat) (fp : JValue)
    (N : Nat) (tr : ScrapeTrace)
    (h1 : f 1 = some fp) (h2 : isFalsy fp = false) (h3 : getTotalPages fp = .ok N)
    (hN : 1 ≤ N) (h4 : scrape_group f order = .ok tr) :
    tr.syncFetches = [1] ∧ tr.poolFetches = List.range' 1 N ∧
    (tr.syncFetches ++ tr.poolFetches).count 1 = 2 ∧
    (∀ p, 2 ≤ p → (tr.syncFetches ++ tr.poolFetches).count p = if p ≤ N then 1 else 0) := by
  rw [scrape_group, h1] at h4
  simp [h2, h3] at h4
  subst h4
  refine ⟨rfl, rfl, ?_, ?_⟩
  · rw [List.count_append, count_range']
    have e1 : List.count 1 [1] = 1 := by decide
    rw [e1]
    have hin : 1 ≤ 1 ∧ 1 < 1 + N := by omega
    simp [hin]
  · intro p hp
    rw [List.count_append, count_range']
    have e1 : List.count p [1] = 0 := by
      apply List.count_eq_zero_of_not_mem
      simp
      omega
    rw [e1]
    split_ifs <;> omega

/-- C1 counterexample: a group whose page-1 fetch succeeds with
`total_pages = 1` issues two `fetch_data_with_retry` calls for page
number 1 (one synchronous, one from the pool), so page 1 is not
attempted exactly once as claimed. -/
theorem page_attempts_counterexample :
    (scrapeAttempts (fun _ => some (.obj [("pagination", .obj [("total_pages", .num 1)])]))
      [1]).count 1 = 2 := by decide

/-- Witness for C1 (amended) at a concrete 2-page group. -/
theorem page_attempts_witness :
    cfW 1 = some fpW ∧ isFalsy fpW = false ∧ getTotalPages fpW = .ok 2 ∧
    (1 : Nat) ≤ 2 ∧ scrape_group cfW [1, 2] = .ok trW ∧
    (trW.syncFetches = [1] ∧ trW.poolFetches = List.range' 1 2 ∧
     (trW.syncFetches ++ trW.poolFetches).count 1 = 2 ∧
     (∀ p, 2 ≤ p → (trW.syncFetches ++ trW.poolFetches).count p = if p ≤ 2 then 1 else 0)) :=
  ⟨rfl, rfl, rfl, by decide, rfl,
   page_attempts cfW [1, 2] fpW 2 trW rfl rfl rfl (by decide) rfl⟩

theorem poolLoop_saves (f : Nat → Option JValue) :
    ∀ (order : List Nat) (idx : Nat),
    (poolLoop f order idx).1 = ((List.range' idx order.length).zip order).filterMap (fun iv =>
      match f iv.2 with
      | some d => if isTruthy d then some (iv.1, d) else none
      | none => none) := by
  intro order
  induction order with
  | nil => intro idx; simp [poolLoop]
  | cons p rest ih =>
    intro idx
    rw [List.length_cons, List.range'_succ]
    rw [List.zip_cons_cons, List.filterMap_cons]
    rw [poolLoop]
    cases hf : f p with
    | none => simp [hf, ih]
    | some d =>
      by_cases ht : isTruthy d
      · simp [hf, ht, ih]
      · simp [hf, ht, ih]

/-- C8 (amended): the pool persists payloads under the 1-based index of
their fetch's position in completion order (`enumerate(as_completed(…), 1)`),
not under the payload's own page number: the saves of a non-aborted
`scrape_group` run are exactly the truthy results of the completion
sequence `order`, the `n`-th completed fetch saved as `page{n}`. -/
theorem saves_by_completion_order (f : Nat → Option JValue) (order : List Nat)
    (fp : JValue) (N : Nat) (tr : ScrapeTrace)
    (h1 : f 1 = some fp) (h2 : isFalsy fp = false) (h3 : getTotalPages fp = .ok N)
    (h4 : scrape_group f order = .ok tr) :
    tr.saves = expectedSaves f order := by
  rw [scrape_group, h1] at h4
  simp [h2, h3] at h4
  subst h4
  simp [expectedSaves, poolLoop_saves f order 1]

/-- C8 counterexample: with page 2's fetch completing before page 1's, the
file named `page1` receives page 2's payload `p8W`, not page 1's
response `fp8W`, refuting "the file named with page number n contains
the response for page n". -/
theorem saves_counterexample :
    scrapeSaves f8W [2, 1] = [(1, p8W), (2, fp8W)] ∧
    f8W 1 = some fp8W ∧ f8W 2 = some p8W ∧ p8W ≠ fp8W := by decide

/-- Witness for C8 (amended) at the same concrete 2-page group. -/
theorem saves_witness :
    f8W 1 = some fp8W ∧ isFalsy fp8W = false ∧ getTotalPages fp8W = .ok 2 ∧
    scrape_group f8W [2, 1] = .ok tr8W ∧
    tr8W.saves = expectedSaves f8W [2, 1] :=
  ⟨rfl, rfl, rfl, rfl,
   saves_by_completion_order f8W [2, 1] fp8W 2 tr8W rfl rfl rfl rfl⟩

theorem scanKeys_no_error (fields : List (String × JValue))
    (hne : ∀ p ∈ fields, p.1 ≠ "team_ranking_data" → p.2 ≠ JValue.arr []) :
    (scanKeys fields).2 = none := by
  induction fields with
  | nil => simp [scanKeys]
  | cons p rest ih =>
    obtain ⟨k, v⟩ := p
    have ihr : (scanKeys rest).2 = none :=
      ih (fun q hq => hne q (List.mem_cons_of_mem _ hq))
    by_cases hk : k = "team_ranking_data"
    · simp [scanKeys, hk, ihr]
    · have hv := hne (k, v) (List.mem_cons_self _ _) hk
      cases v with
      | arr xs =>
        cases xs with
        | nil => exact absurd rfl hv
        | cons sample tail =>
          simp only [scanKeys, if_neg hk]
          split <;> simp [ihr]
      | null => simp [scanKeys, hk, ihr]
      | bool b => simp [scanKeys, hk, ihr]
      | num n => simp [scanKeys, hk, ihr]
      | str s => simp [scanKeys, hk, ihr]
      | obj fs => simp [scanKeys, hk, ihr]

theorem scanKeys_no_match (fields : List (String × JValue))
    (h : ∀ p ∈ fields, scanMatch p = false) :
    (scanKeys fields).1 = [] := by
  induction fields with
  | nil => simp [scanKeys]
  | cons p rest ih =>
    obtain ⟨k, v⟩ := p
    have ihr : (scanKeys rest).1 = [] :=
      ih (fun q hq => h q (List.mem_cons_of_mem _ hq))
    have hp := h (k, v) (List.mem_cons_self _ _)
    by_cases hk : k = "team_ranking_data"
    · simp [scanKeys, hk, ihr]
    · cases v with
      | arr xs =>
        cases xs with
        | nil => simp [scanKeys, hk]
        | cons sample tail =>
          cases sample with
          | obj sfields =>
            have hsm : scanMatch (k, JValue.arr (JValue.obj sfields :: tail)) =
                (decide (k ≠ "team_ranking_data") &&
                  (markerKeys.any fun m => sfields.any fun q => decide (q.1 = m))) := rfl
            rw [hsm] at hp
            have hdk : (decide (k ≠ "team_ranking_data")) = true := by simp [hk]
            rw [hdk, Bool.true_and] at hp
            simp [scanKeys, hk, hp, ihr]
          | null => simp [scanKeys, hk, ihr]
          | bool b => simp [scanKeys, hk, ihr]
          | num n => simp [scanKeys, hk, ihr]
          | str s => simp [scanKeys, hk, ihr]
          | arr ys => simp [scanKeys, hk, ihr]
      | null => simp [scanKeys, hk, ihr]
      | bool b => simp [scanKeys, hk, ihr]
      | num n => simp [scanKeys, hk, ihr]
      | str s => simp [scanKeys, hk, ihr]
      | obj fs => simp [scanKeys, hk, ihr]

/-- C4 (amended): for a JSON-object payload none of whose non-canonical
fields holds an *empty* list, record extraction raises nothing; and when
additionally no field matches the canonical name or the marker-key
heuristic, it yields the empty sequence.  (The unamended claim fails:
an empty-list field raises `IndexError`, see the counterexample.) -/
theorem extract_tolerates (fields : List (String × JValue))
    (hne : ∀ p ∈ fields, p.1 ≠ "team_ranking_data" → p.2 ≠ JValue.arr []) :
    (extractTeams (.obj fields)).2 = none ∧
    (canonMatch fields = false → (∀ p ∈ fields, scanMatch p = false) →
      (extractTeams (.obj fields)).1 = []) := by
  constructor
  · simp [extractTeams, scanKeys_no_error fields hne]
  · intro hc hs
    cases hl : lookupField fields "team_ranking_data" with
    | none => simp [extractTeams, hl, scanKeys_no_match fields hs]
    | some v =>
      cases v with
      | arr xs =>
        rw [canonMatch, hl] at hc
        exact absurd hc (by simp)
      | null => simp [extractTeams, hl, scanKeys_no_match fields hs]
      | bool b => simp [extractTeams, hl, scanKeys_no_match fields hs]
      | num n => simp [extractTeams, hl, scanKeys_no_match fields hs]
      | str s => simp [extractTeams, hl, scanKeys_no_match fields hs]
      | obj fs => simp [extractTeams, hl, scanKeys_no_match fields hs]

/-- C4 counterexample: the payload `{"bar": []}` — a JSON object with an
empty-list field — makes `sample = data[key][0]` raise `IndexError`,
refuting "record extraction never raises … including ones with
empty-list fields". -/
theorem extract_tolerates_counterexample :
    (extractTeams (.obj [("bar", .arr [])])).2 = some PyErr.indexError := by decide

/-- Witness for C4 (amended) at the spec's own example `{"bar": [1,2,3]}`:
no error is raised and the result is empty. -/
theorem extract_tolerates_witness :
    (∀ p ∈ [("bar", JValue.arr [.num 1, .num 2, .num 3])],
        p.1 ≠ "team_ranking_data" → p.2 ≠ JValue.arr []) ∧
    ((extractTeams (.obj [("bar", .arr [.num 1, .num 2, .num 3])])).2 = none ∧
     (canonMatch [("bar", .arr [.num 1, .num 2, .num 3])] = false →
      (∀ p ∈ [("bar", JValue.arr [.num 1, .num 2, .num 3])], scanMatch p = false) →
      (extractTeams (.obj [("bar", .arr [.num 1, .num 2, .num 3])])).1 = [])) :=
  ⟨by decide, extract_tolerates _ (by decide)⟩

theorem pyDictGet_obj (fields : List (String × JValue)) (k : String) :
    pyDictGet (.obj fields) k =
      (match lookupField fields k with
       | some x => Except.ok x
       | none => Except.error (PyErr.keyError k)) := rfl

theorem pyDictGet_obj_err (fields : List (String × JValue)) (k : String) (e : PyErr)
    (h : pyDictGet (.obj fields) k = .error e) : e = .keyError k := by
  rw [pyDictGet_obj] at h
  cases h2 : lookupField fields k with
  | none =>
    rw [h2] at h
    simp at h
    exact h.symm
  | some v =>
    rw [h2] at h
    simp at h

theorem projectTeam_obj_err (fields : List (String × JValue)) (e : PyErr)
    (h : projectTeam (.obj fields) = .error e) : ∃ k, e = .keyError k := by
  unfold projectTeam at h
  cases g1 : pyDictGet (.obj fields) "id" with
  | error e1 =>
    rw [g1] at h
    injection h with h'
    exact ⟨"id", h' ▸ pyDictGet_obj_err _ _ _ g1⟩
  | ok i =>
    rw [g1] at h
    simp only at h
    cases g2 : pyDictGet (.obj fields) "team_name" with
    | error e2 =>
      rw [g2] at h
      injection h with h'
      exact ⟨"team_name", h' ▸ pyDictGet_obj_err _ _ _ g2⟩
    | ok n =>
      rw [g2] at h
      simp only at h
      cases g3 : pyDictGet (.obj fields) "total_points" with
      | error e3 =>
        rw [g3] at h
        injection h with h'
        exact ⟨"total_points", h' ▸ pyDictGet_obj_err _ _ _ g3⟩
      | ok tp =>
        rw [g3] at h
        simp only at h
        cases g4 : pyDictGet (.obj fields) "age" with
        | error e4 =>
          rw [g4] at h
          injection h with h'
          exact ⟨"age", h' ▸ pyDictGet_obj_err _ _ _ g4⟩
        | ok a =>
          rw [g4] at h
          simp only at h
          cases g5 : pyDictGet (.obj fields) "gender" with
          | error e5 =>
            rw [g5] at h
            injection h with h'
            exact ⟨"gender", h' ▸ pyDictGet_obj_err _ _ _ g5⟩
          | ok g =>
            rw [g5] at h
            simp [pyDictGetOpt] at h

theorem processTeams_spec (teams : List JValue) (st : IngestState)
    (h : ∀ t ∈ teams, t.isObj = true) :
    processTeams teams st =
      .ok (teams.filterMap (fun t => (projectTeam t).toOption),
           { st with skipped_teams := st.skipped_teams ++ skippedOf teams }) := by
  induction teams generalizing st with
  | nil => simp [processTeams, skippedOf]
  | cons team rest ih =>
    have hobj := h team (List.mem_cons_self _ _)
    have hrest : ∀ t ∈ rest, t.isObj = true := fun t ht => h t (List.mem_cons_of_mem _ ht)
    obtain ⟨fields, rfl⟩ : ∃ fields, team = .obj fields := by
      cases team <;> simp [JValue.isObj] at hobj
      exact ⟨_, rfl⟩
    cases hp : projectTeam (.obj fields) with
    | ok r =>
      simp only [processTeams, hp, ih st hrest]
      simp [skippedOf, hp, List.filterMap_cons, Except.toOption]
    | error e =>
      obtain ⟨k, rfl⟩ := projectTeam_obj_err fields e hp
      simp only [processTeams, hp, ih _ hrest]
      simp [skippedOf, hp, List.filterMap_cons, Except.toOption, List.append_assoc]

theorem projectTeam_ok_shape (team r : JValue) (h : projectTeam team = .ok r) :
    ∃ fields i n tp a g, team = .obj fields ∧
      lookupField fields "id" = some i ∧
      lookupField fields "team_name" = some n ∧
      lookupField fields "total_points" = some tp ∧
      lookupField fields "age" = some a ∧
      lookupField fields "gender" = some g ∧
      r = .obj [("id", i), ("team_name", n), ("total_points", tp), ("age", a),
                ("gender", g), ("national_rank", (lookupField fields "national_rank").getD .null)] := by
  cases team with
  | obj fields =>
    unfold projectTeam at h
    simp only [pyDictGet_obj, pyDictGetOpt] at h
    cases l1 : lookupField fields "id" <;> rw [l1] at h <;> simp only at h
    case none => cases h
    case some i =>
    cases l2 : lookupField fields "team_name" <;> rw [l2] at h <;> simp only at h
    case none => cases h
    case some n =>
    cases l3 : lookupField fields "total_points" <;> rw [l3] at h <;> simp only at h
    case none => cases h
    case some tp =>
    cases l4 : lookupField fields "age" <;> rw [l4] at h <;> simp only at h
    case none => cases h
    case some a =>
    cases l5 : lookupField fields "gender" <;> rw [l5] at h <;> simp only at h
    case none => cases h
    case some g =>
    injection h with h'
    exact ⟨fields, i, n, tp, a, g, rfl, l1, l2, l3, l4, l5, h'.symm⟩
  | null => simp [projectTeam, pyDictGet] at h
  | bool b => simp [projectTeam, pyDictGet] at h
  | num n => simp [projectTeam, pyDictGet] at h
  | str s => simp [projectTeam, pyDictGet] at h
  | arr xs => simp [projectTeam, pyDictGet] at h

theorem upsertAssoc_mem (m : List (JValue × JValue)) (k v : JValue) (p : JValue × JValue)
    (hp : p ∈ upsertAssoc m k v) : p ∈ m ∨ p = (k, v) := by
  unfold upsertAssoc at hp
  split at hp
  · rw [List.mem_map] at hp
    obtain ⟨q, hq, rfl⟩ := hp
    by_cases h : q.1 = k
    · right; simp [h]
    · left; simpa [h] using hq
  · rcases List.mem_append.mp hp with h1 | h1
    · exact Or.inl h1
    · right; simpa using h1

theorem dedupGo_sub (rest : List JValue) :
    ∀ m d M D, dedupGo rest m d = .ok (M, D) → ∀ p ∈ M, p ∈ m ∨ p.2 ∈ rest := by
  induction rest with
  | nil =>
    intro m d M D h p hp
    simp only [dedupGo, Except.ok.injEq, Prod.mk.injEq] at h
    obtain ⟨h1, _⟩ := h
    subst h1
    exact Or.inl hp
  | cons r rest ih =>
    intro m d M D h p hp
    unfold dedupGo at h
    cases grid : pyDictGet r "id" with
    | error e => rw [grid] at h; cases h
    | ok rid =>
      rw [grid] at h
      simp only at h
      rcases ih _ _ _ _ h p hp with hm | hr
      · rcases upsertAssoc_mem _ _ _ _ hm with h1 | h1
        · exact Or.inl h1
        · right; rw [h1]; exact List.mem_cons_self _ _
      · right; exact List.mem_cons_of_mem _ hr

theorem deduplicate_records_sub (records out dups : List JValue)
    (h : deduplicate_records records = .ok (out, dups)) : ∀ r ∈ out, r ∈ records := by
  intro r hr
  unfold deduplicate_records at h
  cases hgo : dedupGo records [] [] with
  | error e => rw [hgo] at h; cases h
  | ok p =>
    obtain ⟨M, D⟩ := p
    rw [hgo] at h
    simp only [Except.ok.injEq, Prod.mk.injEq] at h
    obtain ⟨h1, _⟩ := h
    subst h1
    rw [List.mem_map] at hr
    obtain ⟨q, hq, rfl⟩ := hr
    rcases dedupGo_sub records [] [] M D hgo q hq with h2 | h2
    · simp at h2
    · exact h2

theorem processTeams_mem (teams : List JValue) :
    ∀ st rs st', processTeams teams st = .ok (rs, st') →
    ∀ r ∈ rs, ∃ t, t ∈ teams ∧ projectTeam t = .ok r := by
  induction teams with
  | nil =>
    intro st rs st' h r hr
    simp only [processTeams, Except.ok.injEq, Prod.mk.injEq] at h
    obtain ⟨h1, _⟩ := h
    subst h1
    simp at hr
  | cons team rest ih =>
    intro st rs st' h r hr
    unfold processTeams at h
    cases hp : projectTeam team with
    | ok rr =>
      rw [hp] at h
      cases hrec : processTeams rest st with
      | error e => rw [hrec] at h; cases h
      | ok pr =>
        obtain ⟨rs', st''⟩ := pr
        rw [hrec] at h
        simp only [Except.ok.injEq, Prod.mk.injEq] at h
        obtain ⟨h1, _⟩ := h
        subst h1
        rcases List.mem_cons.mp hr with rfl | hmem
        · exact ⟨team, List.mem_cons_self _ _, hp⟩
        · obtain ⟨t, ht, hpt⟩ := ih st rs' st'' hrec r hmem
          exact ⟨t, List.mem_cons_of_mem _ ht, hpt⟩
    | error e =>
      cases e with
      | keyError k =>
        rw [hp] at h
        obtain ⟨t, ht, hpt⟩ := ih _ rs st' h r hr
        exact ⟨t, List.mem_cons_of_mem _ ht, hpt⟩
      | indexError => rw [hp] at h; simp at h
      | typeError => rw [hp] at h; simp at h
      | attributeError => rw [hp] at h; simp at h

theorem process_file_mem (name : String) (pf : ParsedFile) (st : IngestState)
    (rs : List JValue) (st' : IngestState)
    (h : process_file name pf st = .ok (rs, st')) :
    ∀ r ∈ rs, ∃ t, projectTeam t = .ok r := by
  intro r hr
  cases pf with
  | parseError msg =>
    simp only [process_file, Except.ok.injEq, Prod.mk.injEq] at h
    obtain ⟨h1, _⟩ := h
    subst h1
    simp at hr
  | value raw =>
    cases raw with
    | arr teams =>
      obtain ⟨t, _, hpt⟩ := processTeams_mem teams st rs st' h r hr
      exact ⟨t, hpt⟩
    | obj fields =>
      simp only [process_file] at h
      by_cases hsome : (lookupField fields "team_ranking_data").isSome = true
      · rw [if_pos hsome] at h
        cases hl : lookupField fields "team_ranking_data" with
        | none => rw [hl] at hsome; simp at hsome
        | some v =>
          simp only [hl] at h
          cases v with
          | arr teams =>
            obtain ⟨t, _, hpt⟩ := processTeams_mem teams st rs st' h r hr
            exact ⟨t, hpt⟩
          | str s =>
            by_cases he : s.data.isEmpty = true
            · simp only [he, if_true, Except.ok.injEq, Prod.mk.injEq] at h
              obtain ⟨h1, _⟩ := h
              subst h1
              simp at hr
            · simp only [he, if_false] at h
              cases h
          | obj ofields =>
            cases ofields with
            | nil =>
              simp only [Except.ok.injEq, Prod.mk.injEq] at h
              obtain ⟨h1, _⟩ := h
              subst h1
              simp at hr
            | cons q qs => simp only at h; cases h
          | null => simp only at h; cases h
          | bool b => simp only at h; cases h
          | num n => simp only at h; cases h
      · rw [if_neg hsome] at h
        simp only [Except.ok.injEq, Prod.mk.injEq] at h
        obtain ⟨h1, _⟩ := h
        subst h1
        simp at hr
    | null =>
      simp only [process_file, Except.ok.injEq, Prod.mk.injEq] at h
      obtain ⟨h1, _⟩ := h
      subst h1
      simp at hr
    | bool b =>
      simp only [process_file, Except.ok.injEq, Prod.mk.injEq] at h
      obtain ⟨h1, _⟩ := h
      subst h1
      simp at hr
    | num n =>
      simp only [process_file, Except.ok.injEq, Prod.mk.injEq] at h
      obtain ⟨h1, _⟩ := h
      subst h1
      simp at hr
    | str s =>
      simp only [process_file, Except.ok.injEq, Prod.mk.injEq] at h
      obtain ⟨h1, _⟩ := h
      subst h1
      simp at hr

theorem processFiles_mem (files : List (String × ParsedFile)) :
    ∀ st rs st', processFiles files st = .ok (rs, st') →
    ∀ r ∈ rs, ∃ t, projectTeam t = .ok r := by
  induction files with
  | nil =>
    intro st rs st' h r hr
    simp only [processFiles, Except.ok.injEq, Prod.mk.injEq] at h
    obtain ⟨h1, _⟩ := h
    subst h1
    simp at hr
  | cons nf rest ih =>
    intro st rs st' h r hr
    obtain ⟨name, pf⟩ := nf
    unfold processFiles at h
    by_cases hj : strEndsWith name ".json"
    · rw [if_pos hj] at h
      cases h1 : process_file name pf st with
      | error e => simp only [h1] at h; cases h
      | ok pr =>
        obtain ⟨rs1, st1⟩ := pr
        simp only [h1] at h
        cases h2 : processFiles rest st1 with
        | error e => simp only [h2] at h; cases h
        | ok pr2 =>
          obtain ⟨rs2, st2⟩ := pr2
          simp only [h2] at h
          simp only [Except.ok.injEq, Prod.mk.injEq] at h
          obtain ⟨h3, _⟩ := h
          subst h3
          rcases List.mem_append.mp hr with h5 | h5
          · exact process_file_mem name pf st rs1 st1 h1 r h5
          · exact ih st1 rs2 st2 h2 r h5
    · rw [if_neg hj] at h
      exact ih st rs st' h r hr

/-- C5: for a source file parsed as an array of mapping-shaped raw records,
any record whose projection fails on a required-field access is the only
one excluded: the output keeps exactly the successfully projected
records in order, and each failing record is appended to the
skipped-records list under its identity when present, else the
placeholder `'unknown'`; the file is processed to the end and the call
returns normally. -/
theorem record_shape_failure (name : String) (teams : List JValue) (st : IngestState)
    (h : ∀ t ∈ teams, t.isObj = true) :
    process_file name (.value (.arr teams)) st =
      .ok (teams.filterMap (fun t => (projectTeam t).toOption),
           { st with skipped_teams := st.skipped_teams ++ skippedOf teams }) :=
  processTeams_spec teams st h

theorem record_shape_failure_witness :
    (∀ t ∈ [wBad, wGood], t.isObj = true) ∧
    process_file "data/a.json" (.value (.arr [wBad, wGood])) initState =
      .ok ([wBad, wGood].filterMap (fun t => (projectTeam t).toOption),
           { initState with
              skipped_teams := initState.skipped_teams ++ skippedOf [wBad, wGood] }) ∧
    [wBad, wGood].filterMap (fun t => (projectTeam t).toOption) = [wGood] ∧
    skippedOf [wBad, wGood] = [(.num 7, "team_name")] :=
  ⟨by decide, record_shape_failure _ _ _ (by decide), by decide, by decide⟩

/-- C10: every record of the deduplicated upsert batch of a completed
pipeline run is a mapping with exactly the six canonical fields
`id, team_name, total_points, age, gender, national_rank`, the first
five copied verbatim from a raw record that contained them, and
`national_rank` equal to the raw record's value or `null` when absent. -/
theorem canonical_shape (files : List (String × ParsedFile)) (flag : Bool) (st : IngestState)
    (out : MainOutcome) (b : List JValue) (r : JValue)
    (h : pipeline_main files flag st = .ok out) (hb : out.batch = some b) (hr : r ∈ b) :
    ∃ fields i n tp a g,
      lookupField fields "id" = some i ∧ lookupField fields "team_name" = some n ∧
      lookupField fields "total_points" = some tp ∧ lookupField fields "age" = some a ∧
      lookupField fields "gender" = some g ∧
      r = .obj [("id", i), ("team_name", n), ("total_points", tp), ("age", a), ("gender", g),
                ("national_rank", (lookupField fields "national_rank").getD .null)] := by
  simp only [pipeline_main] at h
  cases hpf : processFiles files st with
  | error e => simp only [hpf] at h; cases h
  | ok pr =>
    obtain ⟨all_records, st1⟩ := pr
    simp only [hpf] at h
    by_cases hemp : all_records.isEmpty
    · rw [if_pos hemp] at h
      injection h with h'
      rw [← h'] at hb
      simp at hb
    · rw [if_neg hemp] at h
      cases hd : deduplicate_records all_records with
      | error e => simp only [hd] at h; cases h
      | ok p2 =>
        obtain ⟨deduped, dups⟩ := p2
        simp only [hd] at h
        injection h with h'
        rw [← h'] at hb
        simp only at hb
        injection hb with hb'
        subst hb'
        have hrin : r ∈ all_records := deduplicate_records_sub all_records _ _ hd r hr
        obtain ⟨t, hpt⟩ := processFiles_mem files st all_records st1 hpf r hrin
        obtain ⟨fields, i, n, tp, a, g, _, l1, l2, l3, l4, l5, hrEq⟩ :=
          projectTeam_ok_shape t r hpt
        exact ⟨fields, i, n, tp, a, g, l1, l2, l3, l4, l5, hrEq⟩

theorem canonical_shape_witness :
    pipeline_main wFilesC10 true initState = .ok wOutC10 ∧
    wOutC10.batch = some [wGood] ∧ wGood ∈ [wGood] ∧
    (∃ fields i n tp a g,
      lookupField fields "id" = some i ∧ lookupField fields "team_name" = some n ∧
      lookupField fields "total_points" = some tp ∧ lookupField fields "age" = some a ∧
      lookupField fields "gender" = some g ∧
      wGood = .obj [("id", i), ("team_name", n), ("total_points", tp), ("age", a), ("gender", g),
                ("national_rank", (lookupField fields "national_rank").getD .null)]) :=
  ⟨rfl, rfl, List.mem_singleton.mpr rfl,
   canonical_shape wFilesC10 true initState wOutC10 [wGood] wGood rfl rfl
     (List.mem_singleton.mpr rfl)⟩

/-- C6 (amended): the upload script writes its summary log before returning
exactly when at least one valid record was found — in particular it is
written even when the batch upsert fails — but a run that finds no valid
records returns from the early `if not all_records` guard *without*
writing a summary. -/
theorem summary_written (files : List (String × ParsedFile)) (flag : Bool) (st : IngestState)
    (rs : List JValue) (st1 : IngestState) (out : MainOutcome)
    (hr : processFiles files st = .ok (rs, st1))
    (h : pipeline_main files flag st = .ok out) :
    out.logWritten = !rs.isEmpty := by
  simp only [pipeline_main, hr] at h
  by_cases hemp : rs.isEmpty
  · rw [if_pos hemp] at h
    injection h with h'
    rw [← h', hemp]
    rfl
  · rw [if_neg hemp] at h
    cases hd : deduplicate_records rs with
    | error e => simp only [hd] at h; cases h
    | ok p =>
      obtain ⟨dd, dp⟩ := p
      simp only [hd] at h
      injection h with h'
      rw [← h']
      simp only [Bool.not_eq_true] at hemp
      rw [hemp]
      rfl

/-- C6 counterexample: a run whose only file is the unrecognized payload
`{"unexpected": true}` finds no valid records, returns from the early
guard, and never calls `write_log` — no Ingestion Summary is written,
refuting "always writes it to durable storage before returning". -/
theorem summary_written_counterexample :
    Except.map MainOutcome.logWritten
      (pipeline_main [("a.json", .value (.obj [("unexpected", .bool true)]))] true initState)
      = .ok false := rfl

/-- Witness for C6 (amended): one valid record, failing upsert — the
summary is still written. -/
theorem summary_written_witness :
    processFiles wFilesC10 initState = .ok ([wGood], initState) ∧
    pipeline_main wFilesC10 false initState = .ok wOutC6 ∧
    wOutC6.logWritten = !([wGood].isEmpty) :=
  ⟨rfl, rfl, summary_written wFilesC10 false initState [wGood] initState wOutC6 rfl rfl⟩

theorem firstSome_some (x : JValue) (b : Option JValue) : firstSome (some x) b = some x := rfl

theorem firstSome_none (b : Option JValue) : firstSome none b = b := rfl

theorem firstSome_assoc (a b c : Option JValue) :
    firstSome (firstSome a b) c = firstSome a (firstSome b c) := by
  cases a <;> cases b <;> rfl

theorem getLast?_cons_first (a : JValue) (l : List JValue) :
    (a :: l).getLast? = firstSome l.getLast? (some a) := by
  cases l with
  | nil => rfl
  | cons b t =>
    rw [List.getLast?_cons_cons]
    have : (b :: t).getLast?.isSome := by
      rw [List.getLast?_isSome]
      simp
    obtain ⟨x, hx⟩ := Option.isSome_iff_exists.mp this
    rw [hx]
    rfl

theorem upsert_key_fixed (k v : JValue) (p : JValue × JValue) :
    ((if p.1 = k then (k, v) else p) : JValue × JValue).1 = p.1 := by
  split
  · simp [*]
  · rfl

theorem find?_map_upsertFn (k v k' : JValue) (m : List (JValue × JValue)) :
    List.find? (fun p => p.1 = k') (m.map (fun p => if p.1 = k then (k, v) else p)) =
      (List.find? (fun p => p.1 = k') m).map (fun p => if p.1 = k then (k, v) else p) := by
  induction m with
  | nil => rfl
  | cons a m ih =>
    rw [List.map_cons, List.find?_cons, List.find?_cons]
    have hkey := upsert_key_fixed k v a
    by_cases ha : a.1 = k'
    · rw [show (decide ((if a.1 = k then (k, v) else a).1 = k') : Bool) = true by
        rw [hkey]; simp [ha]]
      rw [show (decide (a.1 = k') : Bool) = true by simp [ha]]
      rfl
    · rw [show (decide ((if a.1 = k then (k, v) else a).1 = k') : Bool) = false by
        rw [hkey]; simp [ha]]
      rw [show (decide (a.1 = k') : Bool) = false by simp [ha]]
      exact ih

theorem assocLookup_append_single (m : List (JValue × JValue)) (k v k' : JValue)
    (h : List.find? (fun p => p.1 = k) m = none) :
    assocLookup (m ++ [(k, v)]) k' = if k' = k then some v else assocLookup m k' := by
  induction m with
  | nil =>
    simp only [List.nil_append, assocLookup, List.find?_cons, List.find?_nil]
    by_cases hk : k' = k
    · rw [show (decide (((k, v) : JValue × JValue).1 = k') : Bool) = true by simp [hk]]
      simp [hk]
    · rw [show (decide (((k, v) : JValue × JValue).1 = k') : Bool) = false by
        simp; intro hc; exact absurd hc.symm hk]
      simp [hk]
  | cons a m ih =>
    rw [List.find?_cons] at h
    have ha : (decide (a.1 = k) : Bool) = false := by
      by_contra hc
      rw [Bool.not_eq_false] at hc
      rw [hc] at h
      cases h
    have hak : ¬ a.1 = k := by simpa using ha
    simp only [List.cons_append, assocLookup, List.find?_cons]
    by_cases ha' : a.1 = k'
    · rw [show (decide (a.1 = k') : Bool) = true by simp [ha']]
      have : ¬ k' = k := fun hc => hak (hc ▸ ha')
      simp [this]
    · rw [show (decide (a.1 = k') : Bool) = false by simp [ha']]
      rw [ha] at h
      exact ih h

theorem assocLookup_upsert (m : List (JValue × JValue)) (k v k' : JValue) :
    assocLookup (upsertAssoc m k v) k' = if k' = k then some v else assocLookup m k' := by
  unfold upsertAssoc
  by_cases hpre : (List.find? (fun p => p.1 = k) m).isSome
  · rw [if_pos hpre]
    unfold assocLookup
    rw [find?_map_upsertFn]
    by_cases hk : k' = k
    · subst hk
      obtain ⟨q, hq⟩ := Option.isSome_iff_exists.mp hpre
      rw [hq]
      have hqk : q.1 = k' := by
        have := List.find?_some hq
        simpa using this
      simp [hqk]
    · cases hfq : List.find? (fun p => p.1 = k') m with
      | none => simp [hk]
      | some q =>
        have hqk : q.1 = k' := by
          have := List.find?_some hfq
          simpa using this
        have hqnk : ¬ q.1 = k := fun hc => hk (hqk ▸ hc ▸ rfl)
        simp [hk, hqnk]
  · rw [if_neg hpre]
    have hnone : List.find? (fun p => p.1 = k) m = none := by
      cases hf : List.find? (fun p => p.1 = k) m with
      | none => rfl
      | some q => rw [hf] at hpre; simp at hpre
    exact assocLookup_append_single m k v k' hnone

theorem keysNodup_upsert (m : List (JValue × JValue)) (k v : JValue)
    (h : keysNodup m) : keysNodup (upsertAssoc m k v) := by
  unfold upsertAssoc
  by_cases hpre : (List.find? (fun p => p.1 = k) m).isSome
  · rw [if_pos hpre]
    unfold keysNodup
    have : (m.map (fun p => if p.1 = k then (k, v) else p)).map Prod.fst = m.map Prod.fst := by
      rw [List.map_map]
      exact List.map_congr_left (fun p _ => upsert_key_fixed k v p)
    rw [this]
    exact h
  · rw [if_neg hpre]
    unfold keysNodup
    rw [List.map_append]
    have hknot : k ∉ m.map Prod.fst := by
      intro hc
      rw [List.mem_map] at hc
      obtain ⟨q, hq, hqk⟩ := hc
      have : (List.find? (fun p => p.1 = k) m).isSome := by
        rw [List.find?_isSome]
        exact ⟨q, hq, by simp [hqk]⟩
      exact hpre this
    rw [List.nodup_append]
    refine ⟨h, by simp, ?_⟩
    intro a ha hak
    have : a = k := by simpa using hak
    exact hknot (this ▸ ha)

theorem assocLookup_of_mem (m : List (JValue × JValue)) (k v : JValue)
    (hnd : keysNodup m) (hmem : (k, v) ∈ m) : assocLookup m k = some v := by
  induction m with
  | nil => simp at hmem
  | cons a m ih =>
    unfold keysNodup at hnd
    rw [List.map_cons, List.nodup_cons] at hnd
    obtain ⟨hna, hnd'⟩ := hnd
    rcases List.mem_cons.mp hmem with rfl | hmem'
    · unfold assocLookup
      rw [List.find?_cons]
      simp
    · have hak : ¬ a.1 = k := by
        intro hc
        apply hna
        rw [hc]
        exact List.mem_map.mpr ⟨(k, v), hmem', rfl⟩
      unfold assocLookup
      rw [List.find?_cons]
      rw [show (decide (a.1 = k) : Bool) = false by simp [hak]]
      exact ih hnd' hmem'

theorem mem_of_assocLookup (m : List (JValue × JValue)) (k v : JValue)
    (h : assocLookup m k = some v) : (k, v) ∈ m := by
  unfold assocLookup at h
  cases hf : List.find? (fun p => p.1 = k) m with
  | none => rw [hf] at h; cases h
  | some q =>
    rw [hf] at h
    have hq1 : q.1 = k := by
      have := List.find?_some hf
      simpa using this
    have hq2 : q.2 = v := by
      simpa using h
    have : q = (k, v) := by
      rw [← hq1, ← hq2]
    exact this ▸ List.mem_of_find?_eq_some hf

theorem withId_nil (k : JValue) : withId [] k = [] := rfl

theorem withId_cons (r : JValue) (rest : List JValue) (k : JValue) :
    withId (r :: rest) k =
      if recId r = some k then r :: withId rest k else withId rest k := by
  unfold withId
  rw [List.filter_cons]
  by_cases h : recId r = some k
  · simp [h]
  · simp [h]

theorem pyDictGet_id (r rid : JValue) (h : recId r = some rid) :
    pyDictGet r "id" = .ok rid := by
  cases r with
  | obj fields =>
    simp only [recId] at h
    rw [pyDictGet_obj, h]
  | null => simp [recId] at h
  | bool b => simp [recId] at h
  | num n => simp [recId] at h
  | str s => simp [recId] at h
  | arr xs => simp [recId] at h

theorem mem_insertAbsent (d : List JValue) (rid k : JValue) :
    (k ∈ (if rid ∈ d then d else d ++ [rid])) ↔ (k ∈ d ∨ k = rid) := by
  split_ifs with h
  · constructor
    · exact fun hk => Or.inl hk
    · rintro (hk | rfl)
      · exact hk
      · exact h
  · rw [List.mem_append]
    simp

theorem nodup_insertAbsent (d : List JValue) (rid : JValue) (h : d.Nodup) :
    (if rid ∈ d then d else d ++ [rid]).Nodup := by
  split_ifs with hmem
  · exact h
  · rw [List.nodup_append]
    refine ⟨h, by simp, ?_⟩
    intro a ha hak
    have : a = rid := by simpa using hak
    exact hmem (this ▸ ha)

theorem assocLookup_isSome_find (m : List (JValue × JValue)) (k : JValue) :
    (assocLookup m k).isSome = (List.find? (fun p => p.1 = k) m).isSome := by
  unfold assocLookup
  cases List.find? (fun p => p.1 = k) m <;> rfl

theorem withId_ne_nil_iff (l : List JValue) (k : JValue) :
    withId l k ≠ [] ↔ 1 ≤ (withId l k).length := by
  cases withId l k <;> simp

theorem dedupGo_spec (rest : List JValue) :
    ∀ (m : List (JValue × JValue)) (d : List JValue),
    (∀ r ∈ rest, hasId r = true) →
    keysNodup m →
    (∀ p ∈ m, recId p.2 = some p.1) →
    d.Nodup →
    ∃ M D, dedupGo rest m d = .ok (M, D) ∧
      keysNodup M ∧
      (∀ p ∈ M, recId p.2 = some p.1) ∧
      (∀ k, assocLookup M k = firstSome (withId rest k).getLast? (assocLookup m k)) ∧
      (∀ p ∈ M, p ∈ m ∨ p.2 ∈ rest) ∧
      D.Nodup ∧
      (∀ k, k ∈ D ↔ (k ∈ d ∨ ((assocLookup m k).isSome ∧ withId rest k ≠ []) ∨
        2 ≤ (withId rest k).length)) := by
  induction rest with
  | nil =>
    intro m d hall hm hmid hd
    refine ⟨m, d, rfl, hm, hmid, ?_, ?_, hd, ?_⟩
    · intro k
      rw [withId_nil]
      rfl
    · intro p hp
      exact Or.inl hp
    · intro k
      rw [withId_nil]
      simp
  | cons r rest ih =>
    intro m d hall hm hmid hd
    have hid : hasId r = true := hall r (List.mem_cons_self _ _)
    obtain ⟨rid, hrid⟩ := Option.isSome_iff_exists.mp hid
    have hpy := pyDictGet_id r rid hrid
    have hall' : ∀ x ∈ rest, hasId x = true := fun x hx => hall x (List.mem_cons_of_mem _ hx)
    have hm' : keysNodup (upsertAssoc m rid r) := keysNodup_upsert m rid r hm
    have hmid' : ∀ p ∈ upsertAssoc m rid r, recId p.2 = some p.1 := by
      intro p hp
      rcases upsertAssoc_mem m rid r p hp with h1 | h1
      · exact hmid p h1
      · rw [h1]
        exact hrid
    have hd'nodup : (if (List.find? (fun p => p.1 = rid) m).isSome then
        (if rid ∈ d then d else d ++ [rid]) else d).Nodup := by
      by_cases h1 : (List.find? (fun p => p.1 = rid) m).isSome
      · rw [if_pos h1]
        exact nodup_insertAbsent d rid hd
      · rw [if_neg h1]
        exact hd
    obtain ⟨M, D, hMD, hMnd, hMid, hMlook, hMmem, hDnd, hDiff⟩ :=
      ih (upsertAssoc m rid r)
        (if (List.find? (fun p => p.1 = rid) m).isSome then
          (if rid ∈ d then d else d ++ [rid]) else d)
        hall' hm' hmid' hd'nodup
    refine ⟨M, D, ?_, hMnd, hMid, ?_, ?_, hDnd, ?_⟩
    · simp only [dedupGo, hpy]
      exact hMD
    · intro k
      rw [hMlook k, assocLookup_upsert, withId_cons]
      by_cases hk : recId r = some k
      · have hkr : k = rid := by
          rw [hrid] at hk
          injection hk with h'
          exact h'.symm
        subst hkr
        rw [if_pos hk, if_pos rfl, getLast?_cons_first, firstSome_assoc, firstSome_some]
      · have hkrid : ¬ k = rid := by
          intro hc
          exact hk (hc ▸ hrid)
        rw [if_neg hk, if_neg hkrid]
    · intro p hp
      rcases hMmem p hp with h1 | h1
      · rcases upsertAssoc_mem m rid r p h1 with h2 | h2
        · exact Or.inl h2
        · right
          rw [h2]
          exact List.mem_cons_self _ _
      · right
        exact List.mem_cons_of_mem _ h1
    · intro k
      rw [hDiff k, assocLookup_upsert, withId_cons]
      by_cases hk : recId r = some k
      · have hkr : k = rid := by
          rw [hrid] at hk
          injection hk with h'
          exact h'.symm
        subst hkr
        rw [if_pos hk, if_pos rfl]
        by_cases hpre : (assocLookup m k).isSome
        · have hfind : (List.find? (fun p => p.1 = k) m).isSome := by
            rw [← assocLookup_isSome_find]
            exact hpre
          apply iff_of_true
          · left
            rw [if_pos hfind, mem_insertAbsent]
            exact Or.inr rfl
          · right
            left
            exact ⟨hpre, by simp⟩
        · have hfind : ¬ (List.find? (fun p => p.1 = k) m).isSome := by
            rw [← assocLookup_isSome_find]
            exact hpre
          rw [if_neg hfind]
          constructor
          · rintro (h1 | h1 | h1)
            · exact Or.inl h1
            · right
              right
              rw [List.length_cons]
              rw [withId_ne_nil_iff] at h1
              omega
            · right
              right
              rw [List.length_cons]
              omega
          · rintro (h1 | h1 | h1)
            · exact Or.inl h1
            · exact absurd h1.1 hpre
            · rw [List.length_cons] at h1
              by_cases hn : withId rest k = []
              · rw [hn] at h1
                simp at h1
              · right
                left
                exact ⟨by simp, hn⟩
      · have hkrid : ¬ k = rid := by
          intro hc
          exact hk (hc ▸ hrid)
        rw [if_neg hk, if_neg hkrid]
        have hmm : (k ∈ (if (List.find? (fun p => p.1 = rid) m).isSome then
            (if rid ∈ d then d else d ++ [rid]) else d)) ↔ k ∈ d := by
          by_cases h1 : (List.find? (fun p => p.1 = rid) m).isSome
          · rw [if_pos h1, mem_insertAbsent]
            simp [hkrid]
          · rw [if_neg h1]
        rw [hmm]

theorem filterMap_recId_values (M : List (JValue × JValue))
    (hMid : ∀ p ∈ M, recId p.2 = some p.1) :
    (M.map (·.2)).filterMap recId = M.map Prod.fst := by
  induction M with
  | nil => rfl
  | cons p M ih =>
    rw [List.map_cons, List.filterMap_cons, hMid p (List.mem_cons_self _ _), List.map_cons]
    rw [ih (fun q hq => hMid q (List.mem_cons_of_mem _ hq))]

theorem firstSome_none_isSome (a : Option JValue) : (firstSome a none).isSome = a.isSome := by
  cases a <;> rfl

/-- C2: deduplication of a sequence of identity-carrying records returns
at most one record per identity (the output's identities are pairwise
distinct), the record kept for each identity is the last one observed in
processing order (fields are never merged — the kept record is literally
the last element carrying that identity), an identity appears in the
output iff it occurs in the input, and every identity occurring more
than once is reported as a duplicate exactly once. -/
theorem dedup_last_wins (records : List JValue)
    (h : ∀ r ∈ records, hasId r = true) :
    ∃ out dups, deduplicate_records records = .ok (out, dups) ∧
      (out.filterMap recId).Nodup ∧
      (∀ r k, r ∈ out → recId r = some k → (withId records k).getLast? = some r) ∧
      (∀ k, (∃ r, r ∈ out ∧ recId r = some k) ↔ withId records k ≠ []) ∧
      dups.Nodup ∧
      (∀ k, k ∈ dups ↔ 2 ≤ (withId records k).length) := by
  obtain ⟨M, D, hMD, hMnd, hMid, hMlook, hMmem, hDnd, hDiff⟩ :=
    dedupGo_spec records [] [] h (by simp [keysNodup]) (by simp) (by simp)
  refine ⟨M.map (·.2), D, ?_, ?_, ?_, ?_, hDnd, ?_⟩
  · unfold deduplicate_records
    rw [hMD]
  · rw [filterMap_recId_values M hMid]
    exact hMnd
  · intro r k hr hk
    rw [List.mem_map] at hr
    obtain ⟨p, hpM, rfl⟩ := hr
    have hpk : p.1 = k := by
      have h2 := hMid p hpM
      rw [hk] at h2
      injection h2 with h3
      exact h3.symm
    have hlook : assocLookup M p.1 = some p.2 :=
      assocLookup_of_mem M p.1 p.2 hMnd (by simpa using hpM)
    rw [hpk, hMlook k] at hlook
    cases hX : (withId records k).getLast? with
    | none =>
      rw [hX] at hlook
      cases hlook
    | some y =>
      rw [hX] at hlook
      exact hlook
  · intro k
    have h1 : (∃ r, r ∈ M.map (·.2) ∧ recId r = some k) ↔ (assocLookup M k).isSome := by
      constructor
      · rintro ⟨r, hr, hk⟩
        rw [List.mem_map] at hr
        obtain ⟨p, hpM, rfl⟩ := hr
        have hpk : p.1 = k := by
          have h2 := hMid p hpM
          rw [hk] at h2
          injection h2 with h3
          exact h3.symm
        have := assocLookup_of_mem M p.1 p.2 hMnd (by simpa using hpM)
        rw [hpk] at this
        rw [this]
        rfl
      · intro hs
        obtain ⟨v, hv⟩ := Option.isSome_iff_exists.mp hs
        have hmem := mem_of_assocLookup M k v hv
        refine ⟨v, List.mem_map.mpr ⟨(k, v), hmem, rfl⟩, ?_⟩
        exact hMid (k, v) hmem
    rw [h1, hMlook k]
    have h2 : assocLookup ([] : List (JValue × JValue)) k = none := rfl
    rw [h2]
    rw [show ((firstSome (withId records k).getLast? none).isSome = true) =
      ((withId records k).getLast?.isSome = true) by rw [firstSome_none_isSome]]
    exact List.getLast?_isSome
  · intro k
    rw [hDiff k]
    simp [assocLookup]

theorem dedup_last_wins_witness :
    (∀ r ∈ recsC2, hasId r = true) ∧
    (∃ out dups, deduplicate_records recsC2 = .ok (out, dups) ∧
      (out.filterMap recId).Nodup ∧
      (∀ r k, r ∈ out → recId r = some k → (withId recsC2 k).getLast? = some r) ∧
      (∀ k, (∃ r, r ∈ out ∧ recId r = some k) ↔ withId recsC2 k ≠ []) ∧
      dups.Nodup ∧
      (∀ k, k ∈ dups ↔ 2 ≤ (withId recsC2 k).length)) :=
  ⟨by decide, dedup_last_wins recsC2 (by decide)⟩

theorem processTeams_fst (teams : List JValue) : ∀ st st' : IngestState,
    (processTeams teams st).map Prod.fst = (processTeams teams st').map Prod.fst := by
  induction teams with
  | nil => intro st st'; rfl
  | cons team rest ih =>
    intro st st'
    cases hp : projectTeam team with
    | ok r =>
      simp only [processTeams, hp]
      have h := ih st st'
      cases h1 : processTeams rest st with
      | error e =>
        cases h2 : processTeams rest st' with
        | error e' =>
          rw [h1, h2] at h
          simp only [Except.map] at h
          injection h with h'
          subst h'
          rfl
        | ok p =>
          rw [h1, h2] at h
          simp [Except.map] at h
      | ok p =>
        cases h2 : processTeams rest st' with
        | error e =>
          rw [h1, h2] at h
          simp [Except.map] at h
        | ok p' =>
          rw [h1, h2] at h
          simp only [Except.map] at h
          injection h with h'
          obtain ⟨rs, st1⟩ := p
          obtain ⟨rs', st1'⟩ := p'
          simp only at h'
          subst h'
          rfl
    | error e =>
      cases e with
      | keyError k =>
        simp only [processTeams, hp]
        exact ih _ _
      | indexError => simp only [processTeams, hp]
      | typeError => simp only [processTeams, hp]
      | attributeError => simp only [processTeams, hp]

theorem process_file_fst (name : String) (pf : ParsedFile) : ∀ st st' : IngestState,
    (process_file name pf st).map Prod.fst = (process_file name pf st').map Prod.fst := by
  intro st st'
  cases pf with
  | parseError msg => rfl
  | value raw =>
    cases raw with
    | arr teams => exact processTeams_fst teams st st'
    | obj fields =>
      simp only [process_file]
      by_cases hsome : (lookupField fields "team_ranking_data").isSome = true
      · rw [if_pos hsome, if_pos hsome]
        cases hl : lookupField fields "team_ranking_data" with
        | none => rw [hl] at hsome
        | some v =>
          cases v with
          | arr teams => exact processTeams_fst teams st st'
          | str s =>
            show Except.map Prod.fst (if s.data.isEmpty = true
                then Except.ok (([] : List JValue), st) else Except.error PyErr.typeError) =
              Except.map Prod.fst (if s.data.isEmpty = true
                then Except.ok (([] : List JValue), st') else Except.error PyErr.typeError)
            split <;> rfl
          | obj ofields => cases ofields <;> rfl
          | null => rfl
          | bool b => rfl
          | num n => rfl
      · rw [if_neg hsome, if_neg hsome]
        rfl
    | null => rfl
    | bool b => rfl
    | num n => rfl
    | str s => rfl

theorem processFiles_fst (files : List (String × ParsedFile)) : ∀ st st' : IngestState,
    (processFiles files st).map Prod.fst = (processFiles files st').map Prod.fst := by
  induction files with
  | nil => intro st st'; rfl
  | cons nf rest ih =>
    intro st st'
    obtain ⟨name, pf⟩ := nf
    simp only [processFiles]
    by_cases hj : strEndsWith name ".json" = true
    · rw [if_pos hj, if_pos hj]
      have h := process_file_fst name pf st st'
      cases h1 : process_file name pf st with
      | error e =>
        cases h2 : process_file name pf st' with
        | error e' =>
          rw [h1, h2] at h
          simp only [Except.map] at h
          injection h with h'
          subst h'
          rfl
        | ok p =>
          rw [h1, h2] at h
          simp [Except.map] at h
      | ok p =>
        cases h2 : process_file name pf st' with
        | error e =>
          rw [h1, h2] at h
          simp [Except.map] at h
        | ok p' =>
          obtain ⟨rs1, st1⟩ := p
          obtain ⟨rs1', st1'⟩ := p'
          rw [h1, h2] at h
          simp only [Except.map] at h
          injection h with h'
          subst h'
          show Except.map Prod.fst
              (match processFiles rest st1 with
               | Except.error e => Except.error e
               | Except.ok (rest_rs, st2) => Except.ok (rs1 ++ rest_rs, st2)) =
            Except.map Prod.fst
              (match processFiles rest st1' with
               | Except.error e => Except.error e
               | Except.ok (rest_rs, st2) => Except.ok (rs1 ++ rest_rs, st2))
          have h3 := ih st1 st1'
          cases h4 : processFiles rest st1 with
          | error e =>
            cases h5 : processFiles rest st1' with
            | error e' =>
              rw [h4, h5] at h3
              simp only [Except.map] at h3
              injection h3 with h6
              subst h6
              rfl
            | ok q =>
              rw [h4, h5] at h3
              simp [Except.map] at h3
          | ok q =>
            cases h5 : processFiles rest st1' with
            | error e =>
              rw [h4, h5] at h3
              simp [Except.map] at h3
            | ok q' =>
              obtain ⟨rs2, st2⟩ := q
              obtain ⟨rs2', st2'⟩ := q'
              rw [h4, h5] at h3
              simp only [Except.map] at h3
              injection h3 with h6
              subst h6
              rfl
    · rw [if_neg hj, if_neg hj]
      exact ih st st'

theorem pipeline_batch_indep (files : List (String × ParsedFile)) (f1 f2 : Bool)
    (st st' : IngestState) (out : MainOutcome)
    (h : pipeline_main files f1 st = .ok out) :
    ∃ out', pipeline_main files f2 st' = .ok out' ∧ out'.batch = out.batch := by
  have hfst := processFiles_fst files st st'
  simp only [pipeline_main] at h ⊢
  cases h1 : processFiles files st with
  | error e => simp only [h1] at h; cases h
  | ok p =>
    obtain ⟨rs, st1⟩ := p
    cases h2 : processFiles files st' with
    | error e =>
      rw [h1, h2] at hfst
      simp [Except.map] at hfst
    | ok p' =>
      obtain ⟨rs', st1'⟩ := p'
      rw [h1, h2] at hfst
      simp only [Except.map] at hfst
      injection hfst with h3
      subst h3
      simp only [h1] at h
      simp only [h2]
      by_cases hemp : rs.isEmpty
      · rw [if_pos hemp] at h ⊢
        injection h with h'
        exact ⟨_, rfl, by rw [← h']⟩
      · rw [if_neg hemp] at h ⊢
        cases hd : deduplicate_records rs with
        | error e => simp only [hd] at h; cases h
        | ok pd =>
          obtain ⟨dd, dp⟩ := pd
          simp only [hd] at h ⊢
          injection h with h'
          exact ⟨_, rfl, by rw [← h']⟩

theorem upsertAssoc_noop (T : List (JValue × JValue)) (k r : JValue)
    (hnd : keysNodup T) (hlk : assocLookup T k = some r) :
    upsertAssoc T k r = T := by
  unfold upsertAssoc
  have hpre : (List.find? (fun p => p.1 = k) T).isSome = true := by
    rw [← assocLookup_isSome_find, hlk]
    rfl
  rw [if_pos hpre]
  have hfix : ∀ p ∈ T, (if p.1 = k then (k, r) else p) = p := by
    intro p hp
    obtain ⟨p1, p2⟩ := p
    by_cases hpk : p1 = k
    · subst hpk
      have hv : assocLookup T p1 = some p2 := assocLookup_of_mem T p1 p2 hnd hp
      rw [hlk] at hv
      injection hv with hv'
      subst hv'
      simp
    · simp only at hpk
      simp [hpk]
  rw [List.map_congr_left hfix]
  simp

theorem storeUpsert_cons (t : List (JValue × JValue)) (r : JValue) (b : List JValue)
    (rid : JValue) (h : recId r = some rid) :
    storeUpsert t (r :: b) = storeUpsert (upsertAssoc t rid r) b := by
  simp [storeUpsert, h]

theorem storeUpsert_lookup_notin (b : List JValue) : ∀ (t : List (JValue × JValue)) (k : JValue),
    k ∉ b.filterMap recId →
    assocLookup (storeUpsert t b) k = assocLookup t k := by
  induction b with
  | nil => intro t k _; rfl
  | cons r b ih =>
    intro t k h
    cases hre : recId r with
    | none =>
      have hstep : storeUpsert t (r :: b) = storeUpsert t b := by
        simp [storeUpsert, hre]
      rw [hstep]
      apply ih
      intro hc
      apply h
      rw [List.filterMap_cons, hre]
      exact hc
    | some rid =>
      have hk : k ∉ b.filterMap recId ∧ ¬ k = rid := by
        rw [List.filterMap_cons, hre] at h
        constructor
        · intro hc
          exact h (List.mem_cons_of_mem _ hc)
        · intro hc
          exact h (hc ▸ List.mem_cons_self _ _)
      rw [storeUpsert_cons t r b rid hre]
      rw [ih _ k hk.1, assocLookup_upsert]
      rw [if_neg hk.2]

theorem storeUpsert_keysNodup (b : List JValue) : ∀ t : List (JValue × JValue),
    keysNodup t → keysNodup (storeUpsert t b) := by
  induction b with
  | nil => intro t ht; exact ht
  | cons r b ih =>
    intro t ht
    cases hre : recId r with
    | none =>
      have hstep : storeUpsert t (r :: b) = storeUpsert t b := by
        simp [storeUpsert, hre]
      rw [hstep]
      exact ih t ht
    | some rid =>
      rw [storeUpsert_cons t r b rid hre]
      exact ih _ (keysNodup_upsert t rid r ht)

theorem storeUpsert_idem (b : List JValue) : ∀ t : List (JValue × JValue),
    (∀ r ∈ b, (recId r).isSome = true) → (b.filterMap recId).Nodup → keysNodup t →
    storeUpsert (storeUpsert t b) b = storeUpsert t b := by
  induction b with
  | nil => intro t _ _ _; rfl
  | cons r b ih =>
    intro t hids hnd hT
    obtain ⟨rid, hrid⟩ := Option.isSome_iff_exists.mp (hids r (List.mem_cons_self _ _))
    have hfm : (r :: b).filterMap recId = rid :: b.filterMap recId := by
      rw [List.filterMap_cons, hrid]
    rw [hfm, List.nodup_cons] at hnd
    obtain ⟨hnotin, hnd'⟩ := hnd
    rw [storeUpsert_cons t r b rid hrid]
    rw [storeUpsert_cons (storeUpsert (upsertAssoc t rid r) b) r b rid hrid]
    have hTnd : keysNodup (storeUpsert (upsertAssoc t rid r) b) :=
      storeUpsert_keysNodup b _ (keysNodup_upsert t rid r hT)
    have hlk : assocLookup (storeUpsert (upsertAssoc t rid r) b) rid = some r := by
      rw [storeUpsert_lookup_notin b _ rid hnotin, assocLookup_upsert]
      simp
    rw [upsertAssoc_noop _ rid r hTnd hlk]
    exact ih (upsertAssoc t rid r) (fun x hx => hids x (List.mem_cons_of_mem _ hx)) hnd'
      (keysNodup_upsert t rid r hT)

theorem projected_hasId (tv r : JValue) (h : projectTeam tv = .ok r) : hasId r = true := by
  obtain ⟨fields, i, n, tp, a, g, _, _, _, _, _, _, hrEq⟩ := projectTeam_ok_shape tv r h
  rw [hrEq]
  rfl

theorem processFiles_ids (files : List (String × ParsedFile)) (st : IngestState)
    (rs : List JValue) (st1 : IngestState) (h : processFiles files st = .ok (rs, st1)) :
    ∀ r ∈ rs, hasId r = true := by
  intro r hr
  obtain ⟨tv, hpt⟩ := processFiles_mem files st rs st1 h r hr
  exact projected_hasId tv r hpt

/-- C9: running the Ingestion Pipeline twice on the same unchanged input
files yields the same deduplicated upsert batch (regardless of the
leftover accumulator state or the store's response in either run), and
upserting that batch a second time leaves the identity-keyed table
unchanged: no duplicate rows (table keys stay pairwise distinct) and no
count drift. -/
theorem pipeline_idempotent (files : List (String × ParsedFile)) (f1 f2 : Bool)
    (st st' : IngestState) (t : List (JValue × JValue)) (out : MainOutcome) (b : List JValue)
    (h : pipeline_main files f1 st = .ok out) (hb : out.batch = some b)
    (ht : keysNodup t) :
    (∃ out', pipeline_main files f2 st' = .ok out' ∧ out'.batch = some b) ∧
    storeUpsert (storeUpsert t b) b = storeUpsert t b ∧
    keysNodup (storeUpsert t b) ∧
    (storeUpsert (storeUpsert t b) b).length = (storeUpsert t b).length := by
  obtain ⟨out', ho, hob⟩ := pipeline_batch_indep files f1 f2 st st' out h
  simp only [pipeline_main] at h
  cases h1 : processFiles files st with
  | error e => simp only [h1] at h; cases h
  | ok p =>
    obtain ⟨rs, st1⟩ := p
    simp only [h1] at h
    by_cases hemp : rs.isEmpty
    · rw [if_pos hemp] at h
      injection h with h'
      rw [← h'] at hb
      simp at hb
    · rw [if_neg hemp] at h
      cases hd : deduplicate_records rs with
      | error e => simp only [hd] at h; cases h
      | ok pd =>
        obtain ⟨dd, dp⟩ := pd
        simp only [hd] at h
        injection h with h'
        rw [← h'] at hb
        simp only at hb
        injection hb with hb'
        subst hb'
        unfold deduplicate_records at hd
        cases hgo : dedupGo rs [] [] with
        | error e => rw [hgo] at hd; cases hd
        | ok pMD =>
          obtain ⟨M, D⟩ := pMD
          rw [hgo] at hd
          simp only [Except.ok.injEq, Prod.mk.injEq] at hd
          obtain ⟨hdd, hdp⟩ := hd
          subst hdd
          have hall : ∀ r ∈ rs, hasId r = true := processFiles_ids files st rs st1 h1
          obtain ⟨M', D', hMD', hMnd, hMid, hl1, hl2, hl3, hl4⟩ :=
            dedupGo_spec rs [] [] hall (by simp [keysNodup]) (by simp) (by simp)
          rw [hgo] at hMD'
          simp only [Except.ok.injEq, Prod.mk.injEq] at hMD'
          obtain ⟨hM, hD⟩ := hMD'
          subst hM
          have hids : ∀ r ∈ M.map (fun p => p.2), (recId r).isSome = true := by
            intro r hr
            rw [List.mem_map] at hr
            obtain ⟨q, hq, rfl⟩ := hr
            rw [hMid q hq]
            rfl
          have hnd : ((M.map (fun p => p.2)).filterMap recId).Nodup := by
            rw [filterMap_recId_values M hMid]
            exact hMnd
          refine ⟨⟨out', ho, ?_⟩, ?_, ?_, ?_⟩
          · rw [hob, ← h']
          · exact storeUpsert_idem _ t hids hnd ht
          · exact storeUpsert_keysNodup _ t ht
          · rw [storeUpsert_idem _ t hids hnd ht]

theorem pipeline_idempotent_witness :
    pipeline_main wFilesC10 true initState = .ok wOutC10 ∧
    wOutC10.batch = some [wGood] ∧
    keysNodup ([] : List (JValue × JValue)) ∧
    ((∃ out', pipeline_main wFilesC10 false initState = .ok out' ∧ out'.batch = some [wGood]) ∧
     storeUpsert (storeUpsert [] [wGood]) [wGood] = storeUpsert [] [wGood] ∧
     keysNodup (storeUpsert [] [wGood]) ∧
     (storeUpsert (storeUpsert [] [wGood]) [wGood]).length = (storeUpsert [] [wGood]).length) :=
  ⟨rfl, rfl, by simp [keysNodup],
   pipeline_idempotent wFilesC10 true false initState initState [] wOutC10 [wGood]
     rfl rfl (by simp [keysNodup])⟩
